import Mathlib

set_option maxRecDepth 8000

/-!
Shallow embedding of `nozzlewipe.py` (a Cura post-processing plugin that
inserts nozzle-wipe maneuvers around recognized retract/hop/extrude
sequences), together with theorems settling the specification claims.

Modelling conventions:
* Python strings are Lean `String`s; the character-level operations
  (`split`, `strip`, `rstrip`, slicing) are reproduced on `List Char`.
* Python floats are modelled as exact rationals represented by the
  executable pair type `Q` (integer numerator, positive natural
  denominator, kept unnormalized so that every arithmetic operation is
  kernel-computable); `math.sqrt` is modelled by a rational square root
  that agrees with the real square root on perfect squares (all concrete
  inputs used below are such).
* Python exceptions (IndexError from `arg[0]` on an empty token,
  KeyError from a missing dict key, ValueError from `float(...)`) are
  modelled by `Option`/error results: `none` / `.err` means the Python
  code raises at the corresponding point.
* The generators (`back_and_forth`, the wipe loops, the `process` loop)
  are modelled by fuel-bounded recursion; exhausting fuel is a distinct
  `timeout` outcome that a terminating run never produces once the fuel
  is large enough.
* The `"%.2f" % dist` decimal suffix in the synthesized wipe comments is
  cosmetic (no code or claim ever reads it back); it is abstracted away
  and the wipe comments are modelled as the constant prefixes
  `"wipe takeoff"` / `"wipe landing"`.
-/

/-! ### Exact rationals with kernel-computable arithmetic -/

/-- An exact rational `num / den`.  Every constructor used by the model
keeps `den` positive; no gcd normalization is performed (so that all
operations reduce inside the kernel). -/
structure Q where
  num : ℤ
  den : ℕ
deriving DecidableEq, Repr

def qOfNat (n : ℕ) : Q := ⟨n, 1⟩

def qZero : Q := qOfNat 0

def qAdd (a b : Q) : Q := ⟨a.num * b.den + b.num * a.den, a.den * b.den⟩

def qMul (a b : Q) : Q := ⟨a.num * b.num, a.den * b.den⟩

def qNeg (a : Q) : Q := ⟨-a.num, a.den⟩

def qSub (a b : Q) : Q := qAdd a (qNeg b)

/-- `a ≤ b` by cross multiplication (valid because denominators are
kept positive). -/
def qLe (a b : Q) : Bool := a.num * b.den ≤ b.num * a.den

def qLt (a b : Q) : Bool := a.num * b.den < b.num * a.den

/-- Python `max(a, b)`: `a` unless `b` is strictly greater. -/
def qMax (a b : Q) : Q := if qLt a b then b else a

/-- Division by the float literal `2.0`. -/
def qHalf (a : Q) : Q := ⟨a.num, a.den * 2⟩

/-- Largest `m ≤ k` with `m * m ≤ n` (fuel-free linear search; only ever
evaluated on small concrete squares). -/
def natSqrtBelow (n : ℕ) : ℕ → ℕ
  | 0 => 0
  | k + 1 => if (k + 1) * (k + 1) ≤ n then k + 1 else natSqrtBelow n k

def natSqrt (n : ℕ) : ℕ := natSqrtBelow n n

/-- Model of `math.sqrt` on a nonnegative rational: exact whenever
numerator and denominator are perfect squares (which holds for every
concrete input in this development). -/
def qSqrt (a : Q) : Q := ⟨natSqrt a.num.toNat, natSqrt a.den⟩

/-! ### Python string primitives -/

/-- Whitespace characters recognized by Python's `str.strip`. -/
def pySpace (c : Char) : Bool :=
  c = ' ' || c = '\t' || c = '\n' || c = '\r' || c = '\x0b' || c = '\x0c'

/-- `s.rstrip()`: drop trailing whitespace. -/
def pyRstrip (l : List Char) : List Char :=
  (l.reverse.dropWhile pySpace).reverse

/-- Python `s.strip()`: drop leading and trailing whitespace. -/
def pyStrip (l : List Char) : List Char :=
  pyRstrip (l.dropWhile pySpace)

/-- Python `s.split(sep, 1)`: the part before the first separator
(characterized by `p`), and, when a separator occurs, the part after it. -/
def splitFirst (p : Char → Bool) : List Char → List Char × Option (List Char)
  | [] => ([], none)
  | c :: cs =>
    if p c then ([], some cs)
    else
      let r := splitFirst p cs
      (c :: r.1, r.2)

/-- Python `s.split(" ")`: split on every single occurrence of `sep`,
keeping empty fragments; the result is always nonempty. -/
def splitChar (sep : Char) : List Char → List (List Char)
  | [] => [[]]
  | c :: cs =>
    if c = sep then [] :: splitChar sep cs
    else
      match splitChar sep cs with
      | t :: ts => (c :: t) :: ts
      | [] => [[c]]

/-- Substring test (`pat in s` for Python strings). -/
def strContains (pat : List Char) : List Char → Bool
  | [] => pat.isEmpty
  | c :: cs => decide (pat.isPrefixOf (c :: cs)) || strContains pat cs

/-! ### Records (the `GCode` namedtuple)

Values stored in the args dict are raw strings when produced by
`parse_line`, and Python numbers for the records synthesized by
`make_hop`; `PVal` is that union. -/

inductive PVal where
  | str : String → PVal
  | num : Q → PVal
deriving DecidableEq, Repr

/-- `GCode = namedtuple("GCode", "cmd args comment")`.  The args dict is
modelled as an association list with unique keys, in insertion order. -/
structure GCode where
  cmd : String
  args : List (Char × PVal)
  comment : String
deriving DecidableEq, Repr

/-- Dict update `d[k] = v` (overwrite if the key is present). -/
def dictInsert (k : Char) (v : PVal) : List (Char × PVal) → List (Char × PVal)
  | [] => [(k, v)]
  | (k', v') :: rest =>
    if k' = k then (k, v) :: rest else (k', v') :: dictInsert k v rest

/-- Dict lookup `d[k]` (`none` = KeyError). -/
def getArg (g : GCode) (k : Char) : Option PVal :=
  (g.args.find? (fun p => p.1 = k)).map (fun p => p.2)

/-- `k in g.args`. -/
def hasArg (g : GCode) (k : Char) : Bool :=
  (getArg g k).isSome

/-- The set of present argument letters, `set(gcode.args.keys())`. -/
def argKeys (g : GCode) : List Char :=
  g.args.map (fun p => p.1)

/-- The dict comprehension `{arg[0]: arg[1:] for arg in args}`, built in
token order; `none` models the IndexError raised by `arg[0]` when a
token is empty (which happens whenever the pre-comment part of the line
contains consecutive spaces). -/
def buildArgDict (acc : List (Char × PVal)) : List (List Char) → Option (List (Char × PVal))
  | [] => some acc
  | tok :: toks =>
    match tok with
    | [] => none
    | c :: rest => buildArgDict (dictInsert c (PVal.str (String.mk rest)) acc) toks

/-- First token (the command) and remaining tokens of the stripped
pre-comment part. -/
def tokensOf (l : List Char) : List Char × List (List Char) :=
  match splitChar ' ' (pyStrip l) with
  | [] => ([], [])
  | t :: ts => (t, ts)

/-- `parse_line` from the source: split on the first `;`, the remainder
(right-stripped) is the comment; the part before is stripped and split
on single spaces; the first token is the command and every further
token contributes `tok[0] ↦ tok[1:]` to the args dict.  `none` models
the IndexError on an empty argument token. -/
def parse_line (line : String) : Option GCode :=
  let sp := splitFirst (fun c => c = ';') line.data
  let comment :=
    match sp.2 with
    | some after => String.mk (pyRstrip after)
    | none => ""
  let tk := tokensOf sp.1
  match buildArgDict [] tk.2 with
  | none => none
  | some d => some ⟨String.mk tk.1, d, comment⟩

/-! ### Python `float(...)` on the decimal strings of the toolpath format -/

def isDigitCh (c : Char) : Bool := '0' ≤ c && c ≤ '9'

def digitsToNat (l : List Char) : ℕ :=
  l.foldl (fun a c => 10 * a + (c.toNat - '0'.toNat)) 0

/-- Unsigned decimal mantissa: `digits`, `digits.`, `.digits`,
`digits.digits`. -/
def parseMantissa (l : List Char) : Option Q :=
  let sp := splitFirst (fun c => c = '.') l
  let ip := sp.1
  match sp.2 with
  | none =>
    if ip ≠ [] ∧ ip.all isDigitCh then some (qOfNat (digitsToNat ip)) else none
  | some fp =>
    if ip.all isDigitCh ∧ fp.all isDigitCh ∧ (ip ≠ [] ∨ fp ≠ []) then
      some ⟨digitsToNat ip * 10 ^ fp.length + digitsToNat fp, 10 ^ fp.length⟩
    else none

def parseSignedMantissa : List Char → Option Q
  | '+' :: r => parseMantissa r
  | '-' :: r => (parseMantissa r).map qNeg
  | l => parseMantissa l

/-- Exponent part: sign flag (`true` = negative) and magnitude. -/
def parseExponent : List Char → Option (Bool × ℕ)
  | '+' :: r => if r ≠ [] ∧ r.all isDigitCh then some (false, digitsToNat r) else none
  | '-' :: r => if r ≠ [] ∧ r.all isDigitCh then some (true, digitsToNat r) else none
  | l => if l ≠ [] ∧ l.all isDigitCh then some (false, digitsToNat l) else none

/-- Model of Python `float(s)` restricted to finite decimal notation
(optional sign, decimal mantissa, optional exponent); `none` models
ValueError.  (`inf`/`nan` spellings never occur in toolpath files and
are treated as unparsable.) -/
def pyFloat (s : String) : Option Q :=
  let l := pyStrip s.data
  let sp := splitFirst (fun c => c = 'e' || c = 'E') l
  match sp.2 with
  | none => parseSignedMantissa sp.1
  | some ex =>
    match parseSignedMantissa sp.1, parseExponent ex with
    | some m, some (false, e) => some (qMul m ⟨10 ^ e, 1⟩)
    | some m, some (true, e) => some (qMul m ⟨1, 10 ^ e⟩)
    | _, _ => none

/-- `float(v)` on an args-dict value. -/
def pyFloatVal : PVal → Option Q
  | .str s => pyFloat s
  | .num q => some q

/-- `float(g.args[k])`: KeyError or ValueError become `none`. -/
def argFloat (g : GCode) (k : Char) : Option Q :=
  match getArg g k with
  | none => none
  | some v => pyFloatVal v

example : parse_line "G1 F3000 E929.45693" =
    some ⟨"G1", [('F', .str "3000"), ('E', .str "929.45693")], ""⟩ := by decide
example : parse_line ";TYPE:WALL-OUTER" = some ⟨"", [], "TYPE:WALL-OUTER"⟩ := by decide
example : parse_line "G1  E5" = none := by decide
example : pyFloat "929.45693" = some ⟨92945693, 100000⟩ := by decide
example : pyFloat "-1.5e2" = some ⟨-1500, 10⟩ := by decide
example : pyFloat "abc" = none := by decide
example : qSqrt ⟨9, 1⟩ = ⟨3, 1⟩ := by decide

/-! ### Distance tracker -/

/-- `distance(pos1, pos2)`: planar Euclidean distance; `none` models the
KeyError/ValueError when a coordinate is missing or unparsable. -/
def distance (pos1 pos2 : GCode) : Option Q :=
  match argFloat pos1 'X', argFloat pos2 'X', argFloat pos1 'Y', argFloat pos2 'Y' with
  | some x1, some x2, some y1, some y2 =>
    some (qSqrt (qAdd (qMul (qSub x1 x2) (qSub x1 x2)) (qMul (qSub y1 y2) (qSub y1 y2))))
  | _, _, _, _ => none

/-- Body of the `track_dist` generator after the first yield. -/
def tdGo (last : GCode) (d : Q) : List GCode → Option (List (GCode × Q))
  | [] => some []
  | g :: rest =>
    match distance g last with
    | none => none
    | some delta =>
      let d' := qAdd d delta
      (tdGo g d' rest).map (fun l => (g, d') :: l)

/-- `track_dist(moves)` drained to a list of `(record, cumulative
distance)` pairs; the first pair carries distance 0.  An empty input
yields nothing (the StopIteration from `next` ends the generator). -/
def track_dist : List GCode → Option (List (GCode × Q))
  | [] => some []
  | g :: rest => (tdGo g qZero rest).map (fun l => (g, qZero) :: l)

/-- `dist = 0.0; for step, dist in track_dist(moves): pass` — the final
cumulative distance (0 when there are no steps). -/
def lastDist (moves : List GCode) : Option Q :=
  (track_dist moves).map (fun ps => (ps.map (fun p => p.2)).getLastD qZero)

/-! ### Context scanner -/

/-- The move-collection and count-stop updates of one `extract_context`
iteration: append the record when still collecting and it has X and Y,
then clear the collecting flag once `len(moves) == count`. -/
def ecNext (count : ℕ) (moves : List GCode) (c2 : Bool) (g : GCode) :
    List GCode × Bool :=
  let moves1 := if c2 && hasArg g 'X' && hasArg g 'Y' then moves ++ [g] else moves
  let c3 := if moves1.length = count then false else c2
  (moves1, c3)

/-- One pass of the `extract_context` loop, carrying the accumulated
moves, the last seen Z and the collecting flag. -/
def ecGo (st : Bool) (count : ℕ) :
    List String → List GCode → Option Q → Bool → Option (List GCode × Option Q)
  | [], moves, z, _ => some (moves, z)
  | line :: rest, moves, z_pos, collect =>
    match parse_line line with
    | none => none
    | some g =>
      let c1 := if st && strContains "TYPE:".data g.comment.data then false else collect
      match (match getArg g 'Z' with
             | some v => (pyFloatVal v).map (fun zv => (some zv, false))
             | none => some (z_pos, c1) : Option (Option Q × Bool)) with
      | none => none
      | some (z1, c2) =>
        let nx := ecNext count moves c2 g
        if nx.2 = false ∧ z1.isSome then some (nx.1, z1)
        else ecGo st count rest nx.1 z1 nx.2

/-- `extract_context(lines, count)` from the source (the module-global
`same_type` is passed explicitly).  `none` models an exception raised
while parsing a context line or floating its Z value. -/
def extract_context (st : Bool) (lines : List String) (count : ℕ) :
    Option (List GCode × Option Q) :=
  ecGo st count lines [] none true

/-! ### Oscillator and wipe loops -/

/-- The `i`-th element of `back_and_forth(forth)` (forward copy, then
reversed copy, repeating); `none` only when the list is empty, in which
case the Python generator never yields. -/
def bafElem (forth : List GCode) (i : ℕ) : Option GCode :=
  let n := forth.length
  if n = 0 then none
  else
    let j := i % (2 * n)
    if j < n then forth.get? j else forth.get? (2 * n - 1 - j)

/-- Result of a fallible, fuel-bounded computation: `err` models a
Python exception, `timeout` exhausted fuel (never hit by a terminating
run once the fuel is large enough). -/
inductive MRes (α : Type) where
  | ok : α → MRes α
  | err : MRes α
  | timeout : MRes α
deriving DecidableEq, Repr

/-- The record emitted for one wipe step: `GCode("G1", {"X": ..,
"Y": .., "F": 3000}, tag)`. -/
def wipeRec (vx vy : PVal) (tag : String) : GCode :=
  ⟨"G1", [('X', vx), ('Y', vy), ('F', .num (qOfNat 3000))], tag⟩

/-- The cumulative distance at the next `track_dist` step: unchanged at
the first yielded element, otherwise advanced by the distance to the
previous step. -/
def stepDist (dist : Q) (last : Option GCode) (step : GCode) : Option Q :=
  match last with
  | none => some dist
  | some lg => (distance step lg).map (fun delta => qAdd dist delta)

/-- The wipe emission loop shared by the takeoff (lines 101–110) and
landing (lines 137–146) passes of `make_hop`: walk
`track_dist(back_and_forth(moves))`, emit a `G1 X.. Y.. F3000` record
per step, and stop with the first step whose cumulative distance
reaches `target` (the configured wipe distance halved). -/
def wipeLoop (tag : String) (forth : List GCode) (target : Q) :
    ℕ → ℕ → Q → Option GCode → MRes (List (GCode × Q))
  | 0, _, _, _ => .timeout
  | fuel + 1, i, dist, last =>
    match bafElem forth i with
    | none => .timeout
    | some step =>
      match stepDist dist last step with
      | none => .err
      | some d' =>
        match getArg step 'X', getArg step 'Y' with
        | some vx, some vy =>
          let w := wipeRec vx vy tag
          if qLe target d' then .ok [(w, d')]
          else
            match wipeLoop tag forth target fuel (i + 1) d' (some step) with
            | .ok rest => .ok ((w, d') :: rest)
            | .err => .err
            | .timeout => .timeout
        | _, _ => .err

/-! ### Wipe synthesizer (`make_hop`) -/

/-- The plugin parameters (module-level configuration in the source). -/
structure Config where
  takeoff_dist : Q
  landing_dist : Q
  z_hop_per_mm : Q
  z_relief : Q
  same_type : Bool
deriving DecidableEq, Repr

/-- The parameter defaults declared in the plugin header. -/
def defaultCfg : Config :=
  ⟨qOfNat 10, qOfNat 10, ⟨15, 1000⟩, ⟨5, 100⟩, false⟩

/-- `lines[start-1::-1]`: for `start ≥ 1` the first `start` lines in
reverse order; for `start = 0` Python's negative-index wraparound makes
this the whole list reversed. -/
def backSlice (lines : List String) (start : ℕ) : List String :=
  if start = 0 then lines.reverse else (lines.take start).reverse

/-- The optional `raise a bit` record emitted when the backward scan saw
a Z value. -/
def raiseSeg (cfg : Config) : Option Q → List GCode
  | some z => [⟨"G0", [('Z', .num (qAdd z cfg.z_relief))], "raise a bit"⟩]
  | none => []

/-- `hop_dist`: distance from the first backward-context move to the
`move` target, 0 when there is no context (lines 117–120). -/
def hopDistOf (moves_before : List GCode) (move : GCode) : Option Q :=
  match moves_before with
  | [] => some qZero
  | m0 :: _ => distance m0 move

/-- One guarded wipe pass of `make_hop` (takeoff: lines 101–114,
landing: lines 137–149): when the context has positive length and the
configured wipe distance is positive, emit the loop's records followed
by the same records retraced in reverse; otherwise emit nothing. -/
def wipeSeg (cond : Bool) (wl : MRes (List (GCode × Q))) : MRes (List GCode) :=
  if cond then
    match wl with
    | .ok steps =>
      let recs := steps.map (fun p => p.1)
      .ok (recs ++ recs.reverse)
    | .err => .err
    | .timeout => .timeout
  else .ok []

/-- The variable parts of a `make_hop` emission, in emission order. -/
structure HopParts where
  raiseS : List GCode
  takeoffS : List GCode
  hop : GCode
  lower : GCode
  landingS : List GCode
deriving DecidableEq, Repr

/-- All computations of `make_hop` except the final interleaving of the
original slot records: backward scan, takeoff wipe (emitted then
retraced in reverse), hop record, lowering record, forward scan and
landing wipe. -/
def make_hop_parts (cfg : Config) (lines : List String) (start endI : ℕ)
    (move down up : GCode) (fuel : ℕ) : MRes HopParts :=
  match extract_context cfg.same_type (backSlice lines start) 20 with
  | none => .err
  | some (moves_before, last_z) =>
    match lastDist moves_before with
    | none => .err
    | some dist_before =>
      let rs := raiseSeg cfg last_z
      match wipeSeg (qLt qZero dist_before && qLt qZero cfg.takeoff_dist)
          (wipeLoop "wipe takeoff" moves_before (qHalf cfg.takeoff_dist) fuel 0 qZero none) with
      | .err => .err
      | .timeout => .timeout
      | .ok ts =>
        match hopDistOf moves_before move with
        | none => .err
        | some hop_dist =>
          match argFloat down 'Z', argFloat up 'Z' with
          | some z_next, some z_up_orig =>
            let z_up := qMax (qAdd z_next (qMul cfg.z_hop_per_mm hop_dist)) z_up_orig
            match getArg move 'X', getArg move 'Y' with
            | some mx, some my =>
              let hop := GCode.mk "G0"
                [('X', mx), ('Y', my), ('Z', .num z_up), ('F', .num (qOfNat 9000))] "hop"
              let lower := GCode.mk "G0" [('Z', .num (qAdd z_next cfg.z_relief))] "lower a bit"
              match extract_context cfg.same_type (lines.drop endI) 20 with
              | none => .err
              | some (moves_after, _) =>
                match lastDist moves_after with
                | none => .err
                | some dist_after =>
                  match wipeSeg (qLt qZero dist_after && qLt qZero cfg.landing_dist)
                      (wipeLoop "wipe landing" moves_after (qHalf cfg.landing_dist) fuel 0 qZero none) with
                  | .err => .err
                  | .timeout => .timeout
                  | .ok ls => .ok ⟨rs, ts, hop, lower, ls⟩
            | _, _ => .err
          | _, _ => .err

/-- `make_hop` drained to a list: the `TYPE:Z-WIPE` marker, the optional
raise, the original retract, the takeoff wipe, the hop, the lowering
move, the landing wipe, the original extrude, the section marker (when
present — `if section:` is truthy for every real record) and the
original down move, in source emission order. -/
def make_hop (cfg : Config) (lines : List String) (start endI : ℕ)
    (retract up move : GCode) (sec : Option GCode) (down extrude : GCode)
    (fuel : ℕ) : MRes (List GCode) :=
  match make_hop_parts cfg lines start endI move down up fuel with
  | .err => .err
  | .timeout => .timeout
  | .ok p =>
    .ok ([⟨"", [], "TYPE:Z-WIPE"⟩] ++ p.raiseS ++ [retract] ++ p.takeoffS
      ++ [p.hop] ++ [p.lower] ++ p.landingS ++ [extrude] ++ sec.toList ++ [down])

/-! ### Pattern matcher -/

/-- Argument predicate of a slot: `exact req` models a string spec
(`set(args) == present`), `contains req` models the lambda used by the
`move` slot (`set("FXY").issubset(present)`). -/
inductive ArgsSpec where
  | exact : List Char → ArgsSpec
  | contains : List Char → ArgsSpec
deriving DecidableEq, Repr

def setEqChar (a b : List Char) : Bool :=
  a.all (b.contains ·) && b.all (a.contains ·)

def evalArgsSpec : ArgsSpec → List Char → Bool
  | .exact req, present => setEqChar req present
  | .contains req, present => req.all (present.contains ·)

/-- One entry of the pattern list: `(cmd, args, name, optional)`. -/
structure Slot where
  cmd : String
  spec : ArgsSpec
  name : String
  optional : Bool
deriving DecidableEq, Repr

/-- `hop_pattern` from the source.  Note that every slot — including
`section` — carries `optional = False`. -/
def hop_pattern : List Slot :=
  [⟨"G1", .exact ['F', 'E'], "retract", false⟩,
   ⟨"G1", .exact ['Z'], "up", false⟩,
   ⟨"G0", .contains ['F', 'X', 'Y'], "move", false⟩,
   ⟨"", .exact [], "section", false⟩,
   ⟨"G1", .exact ['Z'], "down", false⟩,
   ⟨"G1", .exact ['F', 'E'], "extrude", false⟩]

/-- Does a parsed record satisfy a slot's command and argument
predicate? -/
def slotMatches (slot : Slot) (g : GCode) : Bool :=
  g.cmd == slot.cmd && evalArgsSpec slot.spec (argKeys g)

/-- `MatchResult` (the mutable matcher state, passed functionally):
`fields` maps filled slot names to records (or `None` for a skipped
optional slot), `start`/`endI` are stream indexes with the `-1`
sentinel of the source. -/
structure MatchResult where
  fields : List (String × Option GCode)
  remaining : List Slot
  start : ℤ
  endI : ℤ
deriving DecidableEq, Repr

def initMatch : MatchResult := ⟨[], hop_pattern, -1, -1⟩

def fieldSet (name : String) (v : Option GCode) :
    List (String × Option GCode) → List (String × Option GCode)
  | [] => [(name, v)]
  | (n, v') :: rest =>
    if n = name then (name, v) :: rest else (n, v') :: fieldSet name v rest

def fieldGet (fields : List (String × Option GCode)) (name : String) :
    Option (Option GCode) :=
  (fields.find? (fun p => p.1 = name)).map (fun p => p.2)

/-- `match_gcode`'s recursion over the remaining slots, threading the
(mutated) fields and start index: commit on a match, pop-and-retry past
an optional slot, otherwise signal the rewind target (`start` when
something has committed, else the current index). -/
def mgGo (g : GCode) (i : ℤ) :
    List Slot → List (String × Option GCode) → ℤ → ℤ → ℤ × MatchResult
  | [], fields, start, endI => (i, ⟨fields, [], start, endI⟩)
  | slot :: rest, fields, start, endI =>
    if slotMatches slot g then
      (-1, ⟨fieldSet slot.name (some g) fields, rest,
            if start = -1 then i else start, i⟩)
    else if slot.optional then
      mgGo g i rest (fieldSet slot.name none fields)
        (if start = -1 then i else start) endI
    else if start ≠ -1 then (start, ⟨fields, slot :: rest, start, endI⟩)
    else (i, ⟨fields, slot :: rest, start, endI⟩)

/-- `match_gcode(gcode, match, i)`: returns the rewind signal (−1 for
"consumed") and the updated state. -/
def match_gcode (g : GCode) (m : MatchResult) (i : ℤ) : ℤ × MatchResult :=
  mgGo g i m.remaining m.fields m.start m.endI

/-! ### Stream processor (`process`) -/

/-- Overall outcome of a run: a completed output stream, the fatal
`UnsupportedModeError` (`raise Exception("Relative mode is not
supported")`), any other Python exception, or exhausted fuel. -/
inductive Outcome where
  | ok : List GCode → Outcome
  | unsupportedMode : Outcome
  | pyError : Outcome
  | timeout : Outcome
deriving DecidableEq, Repr

/-- Kwarg extraction `**match.fields` for a mandatory slot (always a
real record for the all-mandatory `hop_pattern`). -/
def getSlotRec (fields : List (String × Option GCode)) (name : String) :
    Option GCode :=
  match fieldGet fields name with
  | some (some g) => some g
  | _ => none

/-- The `if not match.remaining:` block of the loop body: on a complete
match, extract the six slot records (`**match.fields`), run the
synthesizer and reset the matcher; otherwise keep state unchanged. -/
def completeMatch (cfg : Config) (lines : List String) (fuel : ℕ)
    (acc : List GCode) (m1 : MatchResult) : MRes (List GCode × MatchResult) :=
  if m1.remaining = [] then
    match getSlotRec m1.fields "retract", getSlotRec m1.fields "up",
          getSlotRec m1.fields "move", fieldGet m1.fields "section",
          getSlotRec m1.fields "down", getSlotRec m1.fields "extrude" with
    | some retract, some up, some move, some sec, some down, some extrude =>
      match make_hop cfg lines m1.start.toNat m1.endI.toNat
          retract up move sec down extrude fuel with
      | .ok hseg => .ok (acc ++ hseg, initMatch)
      | .err => .err
      | .timeout => .timeout
    | _, _, _, _, _, _ => .err
  else .ok (acc, m1)

/-- The `if rewind != -1:` block plus the `i += 1` step: where the loop
continues, with what matcher state, and what it passes through.
`none` models an exception while re-parsing the rewound line. -/
def nextState (lines : List String) (i : ℕ) (g : GCode) (rewind : ℤ)
    (m2 : MatchResult) (acc1 : List GCode) :
    Option (ℕ × MatchResult × List GCode) :=
  if rewind = -1 then some (i + 1, m2, acc1)
  else
    let i2 := rewind.toNat
    match (if i2 = i then some g else (lines.get? i2).bind parse_line) with
    | none => none
    | some g2 => some (i2 + 1, if m2.start ≠ -1 then initMatch else m2, acc1 ++ [g2])

/-- The `while i < end` loop of `process`, in index order with explicit
state: current index, matcher state, and output accumulated so far.
One fuel unit is spent per iteration; the inner `make_hop` reuses the
remaining fuel for its wipe loops. -/
def processLoop (cfg : Config) (lines : List String) :
    ℕ → ℕ → MatchResult → List GCode → Outcome
  | 0, _, _, _ => .timeout
  | fuel + 1, i, m, acc =>
    match lines.get? i with
    | none =>
      if m.remaining ≠ [] ∧ m.start ≠ -1 then
        match (lines.drop m.start.toNat).mapM parse_line with
        | none => .pyError
        | some gs => .ok (acc ++ gs)
      else .ok acc
    | some line =>
      match parse_line line with
      | none => .pyError
      | some g =>
        if g.cmd = "G91" then .unsupportedMode
        else
          let r := match_gcode g m (i : ℤ)
          match completeMatch cfg lines fuel acc r.2 with
          | .err => .pyError
          | .timeout => .timeout
          | .ok (acc1, m2) =>
            match nextState lines i g r.1 m2 acc1 with
            | none => .pyError
            | some (i', m', acc') => processLoop cfg lines fuel i' m' acc'

/-- `process(lines)` drained to completion. -/
def process (cfg : Config) (lines : List String) (fuel : ℕ) : Outcome :=
  processLoop cfg lines fuel 0 initMatch []

/-! ### Helper predicates and concrete scenarios used by the claims -/

/-- All argument values of a record are raw strings — true of every
record produced by `parse_line`, i.e. of every slot record handed to
`make_hop` by `process`. -/
def strArgs (g : GCode) : Bool :=
  g.args.all (fun p => match p.2 with | .str _ => true | .num _ => false)

/-- Does the line parse to a record whose command is the relative-mode
selector `G91`? -/
def isG91Line (l : String) : Bool :=
  match parse_line l with
  | none => false
  | some g => g.cmd == "G91"

/-- The line parses, is not the relative-mode selector, and matches none
of the six pattern slots. -/
def passThruLine (l : String) : Bool :=
  match parse_line l with
  | none => false
  | some g => !(g.cmd == "G91") && hop_pattern.all (fun s => !slotMatches s g)

/-- The synthesized takeoff-wipe records of an output stream. -/
def takeoffRecs (out : List GCode) : List GCode :=
  out.filter (fun g => g.comment == "wipe takeoff")

/-- The synthesized landing-wipe records of an output stream. -/
def landingRecs (out : List GCode) : List GCode :=
  out.filter (fun g => g.comment == "wipe landing")

/-- A concrete toolpath with backward context (three travel moves under
a known Z), a full hop-pattern occurrence at indexes 4–9, and forward
context (two travel moves before a Z). -/
def sLines : List String :=
  ["G1 Z4", "G0 X0 Y0", "G0 X3 Y0", "G0 X6 Y0",
   "G1 F3000 E10", "G1 Z5", "G0 F9000 X20 Y0", ";TYPE:WALL",
   "G1 Z4.5", "G1 F3000 E11",
   "G0 X20 Y3", "G0 X20 Y9", "G1 Z9"]

def sRetract : GCode := ⟨"G1", [('F', .str "3000"), ('E', .str "10")], ""⟩

def sUp : GCode := ⟨"G1", [('Z', .str "5")], ""⟩

def sMove : GCode := ⟨"G0", [('F', .str "9000"), ('X', .str "20"), ('Y', .str "0")], ""⟩

def sSec : GCode := ⟨"", [], "TYPE:WALL"⟩

def sDown : GCode := ⟨"G1", [('Z', .str "4.5")], ""⟩

def sExtrude : GCode := ⟨"G1", [('F', .str "3000"), ('E', .str "11")], ""⟩

/-- The synthesizer output for the match at indexes 4–9 of `sLines`. -/
def s_out : List GCode :=
  match make_hop defaultCfg sLines 4 9 sRetract sUp sMove (some sSec) sDown sExtrude 60 with
  | .ok l => l
  | _ => []

/-- A concrete toolpath whose hop-pattern occurrence (indexes 1–6) has
empty backward and forward travel context: a Z-carrying line sits
directly on both sides. -/
def wLines : List String :=
  ["G1 Z4",
   "G1 F3000 E10", "G1 Z5", "G0 F9000 X20 Y0", ";TYPE:WALL",
   "G1 Z4.5", "G1 F3000 E11",
   "G1 Z9"]

def w_out : List GCode :=
  match make_hop defaultCfg wLines 1 6 sRetract sUp sMove (some sSec) sDown sExtrude 60 with
  | .ok l => l
  | _ => []

/-- Backward-context moves (in backward scan order) whose total path
length is 12, exceeding the default `takeoff_dist` of 10. -/
def c4moves : List GCode :=
  [⟨"G0", [('X', .str "12"), ('Y', .str "0")], ""⟩,
   ⟨"G0", [('X', .str "9"), ('Y', .str "0")], ""⟩,
   ⟨"G0", [('X', .str "6"), ('Y', .str "0")], ""⟩,
   ⟨"G0", [('X', .str "3"), ('Y', .str "0")], ""⟩,
   ⟨"G0", [('X', .str "0"), ('Y', .str "0")], ""⟩]

/-- The takeoff-wipe steps traced over `c4moves` with the default
configuration. -/
def c4steps : List (GCode × Q) :=
  match wipeLoop "wipe takeoff" c4moves (qHalf defaultCfg.takeoff_dist) 99 0 qZero none with
  | .ok l => l
  | _ => []

/-- The hop-pattern lines with the bare section-comment line removed. -/
def c7lines : List String :=
  ["G1 F3000 E929.45693", "G1 Z33.000", "G0 F9000 X73.472 Y27.640",
   "G1 Z32.700", "G1 F3000 E934.45693"]

/-- The parses of `c7lines`, in order. -/
def c7out : List GCode :=
  [⟨"G1", [('F', .str "3000"), ('E', .str "929.45693")], ""⟩,
   ⟨"G1", [('Z', .str "33.000")], ""⟩,
   ⟨"G0", [('F', .str "9000"), ('X', .str "73.472"), ('Y', .str "27.640")], ""⟩,
   ⟨"G1", [('Z', .str "32.700")], ""⟩,
   ⟨"G1", [('F', .str "3000"), ('E', .str "934.45693")], ""⟩]

/-! ### Basic lemmas -/

theorem buildArgDict_isSome :
    ∀ (toks : List (List Char)) (acc : List (Char × PVal)),
      toks.all (fun t => !t.isEmpty) = true → ∃ d, buildArgDict acc toks = some d := by
  intro toks
  induction toks with
  | nil => exact fun acc _ => ⟨acc, rfl⟩
  | cons t ts ih =>
    intro acc h
    rw [List.all_cons, Bool.and_eq_true] at h
    cases t with
    | nil => simp [List.isEmpty] at h
    | cons c rest => exact ih _ h.2

theorem bafElem_mem {forth : List GCode} {i : ℕ} {g : GCode}
    (h : bafElem forth i = some g) : g ∈ forth := by
  simp only [bafElem] at h
  by_cases hn : forth.length = 0
  · rw [if_pos hn] at h
    exact absurd h (by simp)
  · rw [if_neg hn] at h
    by_cases hj : i % (2 * forth.length) < forth.length
    · rw [if_pos hj] at h
      exact List.get?_mem h
    · rw [if_neg hj] at h
      exact List.get?_mem h

/-! ### Claim C8 — the line codec -/

/-- C8 (counterexample): `parse_line` is not total — a line with an
empty argument token (consecutive spaces) raises IndexError — and a
line that is not a well-formed command does not degrade to an
empty-command/opaque-comment record; it is parsed as a command plus
letter/value pairs. -/
theorem C8_counterexample :
    parse_line "G1  E5" = none ∧
    parse_line "hello world" = some ⟨"hello", [('w', .str "orld")], ""⟩ ∧
    parse_line "hello world" ≠ some ⟨"", [], "hello world"⟩ := by decide

/-- C8 (amended): `parse_line` produces exactly one record for every
line none of whose argument tokens (the space-split tokens of the
stripped pre-comment part, after the command token) is empty; on such
lines no input is ever dropped.  (A line with an empty argument token
raises; nothing is degraded to an opaque comment.) -/
theorem C8_parse_total_on_clean_lines (line : String)
    (h : (tokensOf (splitFirst (fun c => c = ';') line.data).1).2.all
      (fun t => !t.isEmpty) = true) :
    ∃ g, parse_line line = some g := by
  obtain ⟨d, hd⟩ := buildArgDict_isSome _ [] h
  simp only [parse_line, hd]
  exact ⟨_, rfl⟩

theorem C8_witness : ∃ g, parse_line "G1 F30 E2" = some g :=
  C8_parse_total_on_clean_lines "G1 F30 E2" (by decide)

/-! ### Claim C7 — the section slot -/

/-- C7 (counterexample): with the section-comment line removed from the
hop pattern's five command lines, the match does not complete — the
whole input is passed through re-parsed and no `TYPE:Z-WIPE` marker is
synthesized. -/
theorem C7_counterexample :
    process defaultCfg c7lines 12 = .ok c7out ∧
    (⟨"", [], "TYPE:Z-WIPE"⟩ : GCode) ∉ c7out := by decide

/-- C7 (amended): in this source the `section` slot is NOT optional —
every slot of `hop_pattern` carries `optional = False` — so a record
with a nonempty command arriving at the section slot of a committed
match fails the match and signals a rewind to the commit index, leaving
the state otherwise untouched. -/
theorem C7_section_not_optional :
    (∀ s ∈ hop_pattern, s.optional = false) ∧
    ∀ (g : GCode) (m : MatchResult) (i : ℤ),
      m.remaining = hop_pattern.drop 3 → g.cmd ≠ "" → m.start ≠ -1 →
      match_gcode g m i = (m.start, m) := by
  refine ⟨by decide, ?_⟩
  intro g m i hrem hcmd hstart
  obtain ⟨fields, remaining, start, endI⟩ := m
  simp only [MatchResult.remaining] at hrem
  simp only [MatchResult.start] at hstart
  subst hrem
  have hbeq : (g.cmd == "") = false := by
    simp [hcmd]
  simp [match_gcode, mgGo, hop_pattern, slotMatches, hbeq, hstart]

theorem C7_witness :
    (∀ s ∈ hop_pattern, s.optional = false) ∧
    match_gcode ⟨"G1", [('Z', PVal.str "1")], ""⟩ ⟨[], hop_pattern.drop 3, 2, 2⟩ 5 =
      (2, ⟨[], hop_pattern.drop 3, 2, 2⟩) :=
  ⟨C7_section_not_optional.1,
   C7_section_not_optional.2 _ _ 5 rfl (by decide) (by decide)⟩

/-! ### Claim C9 — end of input mid-match -/

/-- C9 (confirmed): when the input ends while a match is partially
committed (slots remain and a commit index is set), the loop's final
step emits the re-parses of all lines from the commit index to the end
of the input, unchanged and in original order, after the output
accumulated so far. -/
theorem C9_tail_flush (cfg : Config) (lines : List String) (fuel i : ℕ)
    (m : MatchResult) (acc gs : List GCode)
    (hend : lines.length ≤ i) (hrem : m.remaining ≠ []) (hstart : m.start ≠ -1)
    (hparse : (lines.drop m.start.toNat).mapM parse_line = some gs) :
    processLoop cfg lines (fuel + 1) i m acc = .ok (acc ++ gs) := by
  have hget : lines.get? i = none := List.get?_eq_none.mpr hend
  simp only [processLoop, hget]
  rw [if_pos ⟨hrem, hstart⟩, hparse]

theorem C9_witness :
    processLoop defaultCfg ["G1 F3000 E10"] 5 1
      ⟨[("retract", some ⟨"G1", [('F', .str "3000"), ('E', .str "10")], ""⟩)],
       hop_pattern.drop 1, 0, 0⟩ [] =
    .ok ([] ++ [⟨"G1", [('F', .str "3000"), ('E', .str "10")], ""⟩]) :=
  C9_tail_flush defaultCfg _ 4 1 _ [] _ (by decide) (by decide) (by decide) (by decide)

/-! ### Concrete counterexamples for C1, C2, C3, C4, C10 -/

/-- C1 (counterexample): the input `["X  Y", "G91"]` contains a line
whose command is `G91`, yet processing fails with the IndexError raised
while parsing the earlier malformed line — not with
`UnsupportedModeError`. -/
theorem C1_counterexample :
    isG91Line "G91" = true ∧
    process defaultCfg ["X  Y", "G91"] 5 = .pyError ∧
    process defaultCfg ["X  Y", "G91"] 5 ≠ .unsupportedMode := by decide

/-- C2 (counterexample): the single-line input `["G91"]` matches none of
the six pattern slots, yet the output is not the re-rendered input —
the run aborts with `UnsupportedModeError`. -/
theorem C2_counterexample :
    hop_pattern.all (fun s => !slotMatches s ⟨"G91", [], ""⟩) = true ∧
    parse_line "G91" = some ⟨"G91", [], ""⟩ ∧
    process defaultCfg ["G91"] 5 = .unsupportedMode := by decide

/-- C3 (counterexample): a successfully synthesized hop whose takeoff
and landing wipes are both emitted and nonempty, while no wipe record
carries any `E` value at all (the originals' `E` values are present
only on the retract/extrude records themselves) — so no "last emitted
extrusion value in the wipe" exists to equal the slot's value. -/
theorem C3_counterexample :
    make_hop defaultCfg sLines 4 9 sRetract sUp sMove (some sSec) sDown sExtrude 60 =
      .ok s_out ∧
    takeoffRecs s_out ≠ [] ∧
    (takeoffRecs s_out).all (fun g => (getArg g 'E').isNone) = true ∧
    landingRecs s_out ≠ [] ∧
    (landingRecs s_out).all (fun g => (getArg g 'E').isNone) = true ∧
    getArg sRetract 'E' = some (.str "10") ∧
    getArg sExtrude 'E' = some (.str "11") := by decide

/-- C4 (counterexample): backward context of total path length 12 ≥ the
configured `takeoff_dist` 10, yet the takeoff wipe emitted before the
reversal pass traces a path of length 6 (the loop stops at the first
step whose cumulative distance reaches `takeoff_dist / 2`), not 10. -/
theorem C4_counterexample :
    lastDist c4moves = some ⟨12, 1⟩ ∧
    qLe defaultCfg.takeoff_dist ⟨12, 1⟩ = true ∧
    wipeLoop "wipe takeoff" c4moves (qHalf defaultCfg.takeoff_dist) 99 0 qZero none =
      .ok c4steps ∧
    lastDist (c4steps.map (fun p => p.1)) = some ⟨6, 1⟩ ∧
    qLt ⟨6, 1⟩ defaultCfg.takeoff_dist = true := by decide

/-- C10 (counterexample): with `count = 0` the scanner's
`len(moves) == count` stop test can never fire once a move has been
collected, so the returned list has MORE than `count` elements. -/
theorem C10_counterexample :
    extract_context false ["G0 X1 Y1"] 0 =
      some ([⟨"G0", [('X', .str "1"), ('Y', .str "1")], ""⟩], none) ∧
    ¬ (([⟨"G0", [('X', PVal.str "1"), ('Y', PVal.str "1")], ""⟩] : List GCode).length ≤ 0) := by
  decide

/-! ### Shape of a completed wipe loop -/

theorem wipeLoop_ok_shape (tag : String) (forth : List GCode) (target : Q) :
    ∀ (fuel i : ℕ) (dist : Q) (last : Option GCode) (steps : List (GCode × Q)),
      wipeLoop tag forth target fuel i dist last = .ok steps →
      (∃ pre lastp, steps = pre ++ [lastp] ∧
        (∀ p ∈ pre, qLe target p.2 = false) ∧ qLe target lastp.2 = true) ∧
      ∀ p ∈ steps, ∃ src ∈ forth, ∃ vx vy,
        getArg src 'X' = some vx ∧ getArg src 'Y' = some vy ∧
        p.1 = wipeRec vx vy tag := by
  intro fuel
  induction fuel with
  | zero =>
    intro i dist last steps h
    exact absurd h (by simp [wipeLoop])
  | succ fuel ih =>
    intro i dist last steps h
    simp only [wipeLoop] at h
    cases hb : bafElem forth i with
    | none => rw [hb] at h; exact absurd h (by simp)
    | some step =>
      rw [hb] at h
      try dsimp only at h
      cases hd : stepDist dist last step with
      | none => rw [hd] at h; exact absurd h (by simp)
      | some d' =>
        rw [hd] at h
        try dsimp only at h
        cases hx : getArg step 'X' with
        | none => rw [hx] at h; exact absurd h (by simp)
        | some vx =>
          rw [hx] at h
          try dsimp only at h
          cases hy : getArg step 'Y' with
          | none => rw [hy] at h; exact absurd h (by simp)
          | some vy =>
            rw [hy] at h
            try dsimp only at h
            by_cases hle : qLe target d' = true
            · rw [if_pos hle] at h
              obtain rfl : [(wipeRec vx vy tag, d')] = steps := by
                cases h; rfl
              refine ⟨⟨[], (wipeRec vx vy tag, d'), by simp, by simp, hle⟩, ?_⟩
              intro p hp
              rw [List.mem_singleton] at hp
              subst hp
              exact ⟨step, bafElem_mem hb, vx, vy, hx, hy, rfl⟩
            · rw [if_neg hle] at h
              cases hr : wipeLoop tag forth target fuel (i + 1) d' (some step) with
              | err => rw [hr] at h; exact absurd h (by simp)
              | timeout => rw [hr] at h; exact absurd h (by simp)
              | ok rest =>
                rw [hr] at h
                obtain rfl : (wipeRec vx vy tag, d') :: rest = steps := by
                  cases h; rfl
                obtain ⟨⟨pre', lastp', hsp, hpre, hlast⟩, hmem⟩ :=
                  ih (i + 1) d' (some step) rest hr
                refine ⟨⟨(wipeRec vx vy tag, d') :: pre', lastp', by rw [hsp]; rfl, ?_, hlast⟩, ?_⟩
                · intro p hp
                  rcases List.mem_cons.mp hp with hp | hp
                  · subst hp
                    exact Bool.not_eq_true _ ▸ (Bool.eq_false_iff.mpr hle)
                  · exact hpre p hp
                · intro p hp
                  rcases List.mem_cons.mp hp with hp | hp
                  · subst hp
                    exact ⟨step, bafElem_mem hb, vx, vy, hx, hy, rfl⟩
                  · exact hmem p hp

/-- C4 (amended): whenever the wipe loop that `make_hop` runs over the
oscillated context completes, the emitted steps (the takeoff records
before the reversal pass) consist of steps whose cumulative traced
distance is below the target `takeoff_dist / 2` followed by exactly one
final step whose cumulative distance reaches the target — so the traced
length is the first cumulative oscillating distance ≥ `takeoff_dist/2`,
not `takeoff_dist` — and every emitted point copies the X/Y of some
collected context move (no extrapolation outside the context
geometry). -/
theorem C4_wipe_stops_at_half (tag : String) (forth : List GCode) (target : Q)
    (fuel : ℕ) (steps : List (GCode × Q))
    (h : wipeLoop tag forth target fuel 0 qZero none = .ok steps) :
    (∃ pre lastp, steps = pre ++ [lastp] ∧
      (∀ p ∈ pre, qLe target p.2 = false) ∧ qLe target lastp.2 = true) ∧
    ∀ p ∈ steps, ∃ src ∈ forth,
      getArg p.1 'X' = getArg src 'X' ∧ getArg p.1 'Y' = getArg src 'Y' := by
  obtain ⟨hsplit, hmem⟩ := wipeLoop_ok_shape tag forth target fuel 0 qZero none steps h
  refine ⟨hsplit, ?_⟩
  intro p hp
  obtain ⟨src, hsrc, vx, vy, hvx, hvy, hshape⟩ := hmem p hp
  refine ⟨src, hsrc, ?_, ?_⟩
  · rw [hshape, hvx]; rfl
  · rw [hshape, hvy]; rfl

theorem C4_witness :
    (∃ pre lastp, c4steps = pre ++ [lastp] ∧
      (∀ p ∈ pre, qLe (qHalf defaultCfg.takeoff_dist) p.2 = false) ∧
      qLe (qHalf defaultCfg.takeoff_dist) lastp.2 = true) ∧
    ∀ p ∈ c4steps, ∃ src ∈ c4moves,
      getArg p.1 'X' = getArg src 'X' ∧ getArg p.1 'Y' = getArg src 'Y' :=
  C4_wipe_stops_at_half "wipe takeoff" c4moves (qHalf defaultCfg.takeoff_dist) 99 c4steps
    (by decide)

/-! ### Inversion of a successful synthesis -/

theorem wipeSeg_ok {cond : Bool} {wl : MRes (List (GCode × Q))} {ts : List GCode}
    (h : wipeSeg cond wl = .ok ts) :
    (cond = false ∧ ts = []) ∨
    (cond = true ∧ ∃ steps, wl = .ok steps ∧
      ts = steps.map (fun p => p.1) ++ (steps.map (fun p => p.1)).reverse) := by
  cases cond with
  | false =>
    left
    refine ⟨rfl, ?_⟩
    simp only [wipeSeg, Bool.false_eq_true, if_false] at h
    cases h
    rfl
  | true =>
    right
    refine ⟨rfl, ?_⟩
    simp only [wipeSeg, if_true] at h
    cases wl with
    | ok steps =>
      refine ⟨steps, rfl, ?_⟩
      simp only at h
      cases h
      rfl
    | err => exact absurd h (by simp)
    | timeout => exact absurd h (by simp)

theorem wipeSeg_mem_shape {cond : Bool} {tag : String} {forth : List GCode}
    {target : Q} {fuel : ℕ} {ts : List GCode}
    (h : wipeSeg cond (wipeLoop tag forth target fuel 0 qZero none) = .ok ts) :
    ∀ g ∈ ts, ∃ vx vy, g = wipeRec vx vy tag := by
  intro g hg
  rcases wipeSeg_ok h with ⟨_, rfl⟩ | ⟨_, steps, hw, rfl⟩
  · simp at hg
  · obtain ⟨-, hmem⟩ := wipeLoop_ok_shape tag forth target fuel 0 qZero none steps hw
    rcases List.mem_append.mp hg with hm | hm
    · obtain ⟨p, hpmem, rfl⟩ := List.mem_map.mp hm
      obtain ⟨src, -, vx, vy, -, -, hshape⟩ := hmem p hpmem
      exact ⟨vx, vy, hshape⟩
    · rw [List.mem_reverse] at hm
      obtain ⟨p, hpmem, rfl⟩ := List.mem_map.mp hm
      obtain ⟨src, -, vx, vy, -, -, hshape⟩ := hmem p hpmem
      exact ⟨vx, vy, hshape⟩

theorem getArg_wipeRec_E (vx vy : PVal) (tag : String) :
    getArg (wipeRec vx vy tag) 'E' = none := rfl

theorem wipeRec_cmd (vx vy : PVal) (tag : String) :
    (wipeRec vx vy tag).cmd = "G1" := rfl

theorem strArgs_no_num {g : GCode} (h : strArgs g = true) (k : Char) (q : Q) :
    (k, PVal.num q) ∉ g.args := by
  intro hmem
  unfold strArgs at h
  rw [List.all_eq_true] at h
  have hx := h _ hmem
  simp only at hx
  exact absurd hx (by simp)

/-- Everything a successful `make_hop_parts` run determines: the two
context scans and their path lengths succeeded, the raise segment is
the one dictated by the backward scan's Z, both wipe segments come from
the guarded wipe loops, and the hop/lower records carry exactly the
source's formulas. -/
theorem mhp_ok_inv {cfg : Config} {lines : List String} {s e : ℕ}
    {move down up : GCode} {fuel : ℕ} {p : HopParts}
    (hp : make_hop_parts cfg lines s e move down up fuel = .ok p) :
    ∃ mb lz db ma lza da,
      extract_context cfg.same_type (backSlice lines s) 20 = some (mb, lz) ∧
      lastDist mb = some db ∧
      extract_context cfg.same_type (lines.drop e) 20 = some (ma, lza) ∧
      lastDist ma = some da ∧
      p.raiseS = raiseSeg cfg lz ∧
      wipeSeg (qLt qZero db && qLt qZero cfg.takeoff_dist)
        (wipeLoop "wipe takeoff" mb (qHalf cfg.takeoff_dist) fuel 0 qZero none) =
        .ok p.takeoffS ∧
      wipeSeg (qLt qZero da && qLt qZero cfg.landing_dist)
        (wipeLoop "wipe landing" ma (qHalf cfg.landing_dist) fuel 0 qZero none) =
        .ok p.landingS ∧
      ∃ hop_dist z_next z_up_orig mx my,
        hopDistOf mb move = some hop_dist ∧
        argFloat down 'Z' = some z_next ∧ argFloat up 'Z' = some z_up_orig ∧
        getArg move 'X' = some mx ∧ getArg move 'Y' = some my ∧
        p.hop = ⟨"G0", [('X', mx), ('Y', my),
          ('Z', .num (qMax (qAdd z_next (qMul cfg.z_hop_per_mm hop_dist)) z_up_orig)),
          ('F', .num (qOfNat 9000))], "hop"⟩ ∧
        p.lower = ⟨"G0", [('Z', .num (qAdd z_next cfg.z_relief))], "lower a bit"⟩ := by
  simp only [make_hop_parts] at hp
  cases hctxB : extract_context cfg.same_type (backSlice lines s) 20 with
  | none => rw [hctxB] at hp; exact absurd hp (by simp)
  | some pr =>
    obtain ⟨mb, lz⟩ := pr
    rw [hctxB] at hp
    try dsimp only at hp
    cases hdb : lastDist mb with
    | none => rw [hdb] at hp; exact absurd hp (by simp)
    | some db =>
      rw [hdb] at hp
      try dsimp only at hp
      cases hts : wipeSeg (qLt qZero db && qLt qZero cfg.takeoff_dist)
          (wipeLoop "wipe takeoff" mb (qHalf cfg.takeoff_dist) fuel 0 qZero none) with
      | err => rw [hts] at hp; exact absurd hp (by simp)
      | timeout => rw [hts] at hp; exact absurd hp (by simp)
      | ok ts =>
        rw [hts] at hp
        try dsimp only at hp
        cases hhd : hopDistOf mb move with
        | none => rw [hhd] at hp; exact absurd hp (by simp)
        | some hop_dist =>
          rw [hhd] at hp
          try dsimp only at hp
          cases hzd : argFloat down 'Z' with
          | none => rw [hzd] at hp; exact absurd hp (by simp)
          | some z_next =>
            rw [hzd] at hp
            try dsimp only at hp
            cases hzu : argFloat up 'Z' with
            | none => rw [hzu] at hp; exact absurd hp (by simp)
            | some z_up_orig =>
              rw [hzu] at hp
              try dsimp only at hp
              cases hmx : getArg move 'X' with
              | none => rw [hmx] at hp; exact absurd hp (by simp)
              | some mx =>
                rw [hmx] at hp
                try dsimp only at hp
                cases hmy : getArg move 'Y' with
                | none => rw [hmy] at hp; exact absurd hp (by simp)
                | some my =>
                  rw [hmy] at hp
                  try dsimp only at hp
                  cases hctxA : extract_context cfg.same_type (lines.drop e) 20 with
                  | none => rw [hctxA] at hp; exact absurd hp (by simp)
                  | some pa =>
                    obtain ⟨ma, lza⟩ := pa
                    rw [hctxA] at hp
                    try dsimp only at hp
                    cases hda : lastDist ma with
                    | none => rw [hda] at hp; exact absurd hp (by simp)
                    | some da =>
                      rw [hda] at hp
                      try dsimp only at hp
                      cases hls : wipeSeg (qLt qZero da && qLt qZero cfg.landing_dist)
                          (wipeLoop "wipe landing" ma (qHalf cfg.landing_dist) fuel 0 qZero none) with
                      | err => rw [hls] at hp; exact absurd hp (by simp)
                      | timeout => rw [hls] at hp; exact absurd hp (by simp)
                      | ok ls =>
                        rw [hls] at hp
                        try dsimp only at hp
                        cases hp
                        exact ⟨mb, lz, db, ma, lza, da, rfl, hdb, rfl, hda, rfl,
                          hts, hls, hop_dist, z_next, z_up_orig, mx, my,
                          hhd, rfl, rfl, rfl, rfl, rfl, rfl⟩

/-! ### Claim C3 — extrusion content of the wipes -/

/-- C3 (amended): in every successful synthesis the takeoff and landing
wipe segments carry NO extrusion (`E`) values at all — the wipes
retrace without extruding — while the original retract record (with its
`E` value) is emitted immediately before the takeoff wipe and the
original extrude record (with its `E` value) immediately after the
landing wipe, both unchanged. -/
theorem C3_wipes_carry_no_E (cfg : Config) (lines : List String) (s e : ℕ)
    (retract up move : GCode) (sec : Option GCode) (down extrude : GCode)
    (fuel : ℕ) (out : List GCode)
    (hmh : make_hop cfg lines s e retract up move sec down extrude fuel = .ok out) :
    ∃ rs ts h l ls,
      out = [⟨"", [], "TYPE:Z-WIPE"⟩] ++ rs ++ [retract] ++ ts ++ [h] ++ [l] ++ ls
        ++ [extrude] ++ sec.toList ++ [down] ∧
      (∀ g ∈ ts, getArg g 'E' = none) ∧ (∀ g ∈ ls, getArg g 'E' = none) := by
  unfold make_hop at hmh
  cases hp : make_hop_parts cfg lines s e move down up fuel with
  | err => rw [hp] at hmh; exact absurd hmh (by simp)
  | timeout => rw [hp] at hmh; exact absurd hmh (by simp)
  | ok p =>
    rw [hp] at hmh
    try dsimp only at hmh
    cases hmh
    obtain ⟨mb, lz, db, ma, lza, da, hB, hdb, hA, hda, hrs, hts, hls, -⟩ := mhp_ok_inv hp
    refine ⟨p.raiseS, p.takeoffS, p.hop, p.lower, p.landingS, rfl, ?_, ?_⟩
    · intro g hg
      obtain ⟨vx, vy, rfl⟩ := wipeSeg_mem_shape hts g hg
      rfl
    · intro g hg
      obtain ⟨vx, vy, rfl⟩ := wipeSeg_mem_shape hls g hg
      rfl

theorem C3_witness :
    ∃ rs ts h l ls,
      s_out = [⟨"", [], "TYPE:Z-WIPE"⟩] ++ rs ++ [sRetract] ++ ts ++ [h] ++ [l] ++ ls
        ++ [sExtrude] ++ (some sSec).toList ++ [sDown] ∧
      (∀ g ∈ ts, getArg g 'E' = none) ∧ (∀ g ∈ ls, getArg g 'E' = none) :=
  C3_wipes_carry_no_E defaultCfg sLines 4 9 sRetract sUp sMove (some sSec) sDown sExtrude
    60 s_out (by decide)

/-! ### Claim C5 — empty-context fallback -/

/-- C5 (confirmed): in every successful synthesis, when the backward
scan collects no context moves the takeoff wipe is omitted — the
original retract record is followed directly by the hop record — and
when the forward scan collects no context moves the landing wipe is
omitted — the lowering record is followed directly by the original
extrude record.  The retract/extrude records themselves are emitted
unchanged in both cases. -/
theorem C5_empty_context_fallback (cfg : Config) (lines : List String) (s e : ℕ)
    (retract up move : GCode) (sec : Option GCode) (down extrude : GCode)
    (fuel : ℕ) (out : List GCode)
    (hmh : make_hop cfg lines s e retract up move sec down extrude fuel = .ok out) :
    (∀ lz, extract_context cfg.same_type (backSlice lines s) 20 = some ([], lz) →
      ∃ h l ls, out = [⟨"", [], "TYPE:Z-WIPE"⟩] ++ raiseSeg cfg lz ++ [retract, h, l]
          ++ ls ++ [extrude] ++ sec.toList ++ [down] ∧
        h.comment = "hop" ∧ l.comment = "lower a bit") ∧
    (∀ lza, extract_context cfg.same_type (lines.drop e) 20 = some ([], lza) →
      ∃ front z, out = front ++ [⟨"G0", [('Z', PVal.num z)], "lower a bit"⟩, extrude]
        ++ sec.toList ++ [down]) := by
  unfold make_hop at hmh
  cases hp : make_hop_parts cfg lines s e move down up fuel with
  | err => rw [hp] at hmh; exact absurd hmh (by simp)
  | timeout => rw [hp] at hmh; exact absurd hmh (by simp)
  | ok p =>
    rw [hp] at hmh
    try dsimp only at hmh
    cases hmh
    obtain ⟨mb, lz0, db, ma, lza0, da, hB, hdb, hA, hda, hrs, hts, hls,
      hop_dist, z_next, z_up_orig, mx, my, hhd, hzd, hzu, hmx, hmy, hhop, hlow⟩ :=
      mhp_ok_inv hp
    constructor
    · intro lz hctx
      rw [hB] at hctx
      simp only [Option.some.injEq, Prod.mk.injEq] at hctx
      obtain ⟨hmb, hlz⟩ := hctx
      subst hmb
      subst hlz
      have hdb0 : db = qZero := by
        have hz : lastDist ([] : List GCode) = some qZero := rfl
        rw [hz] at hdb
        exact (Option.some.inj hdb).symm
      subst hdb0
      have hcond : (qLt qZero qZero && qLt qZero cfg.takeoff_dist) = false := by
        rw [show qLt qZero qZero = false from by decide]
        exact Bool.false_and _
      rcases wipeSeg_ok hts with ⟨-, hempty⟩ | ⟨hcondtrue, -⟩
      · refine ⟨p.hop, p.lower, p.landingS, ?_, by rw [hhop], by rw [hlow]⟩
        rw [hrs, hempty]
        simp
      · rw [hcond] at hcondtrue
        exact absurd hcondtrue (by simp)
    · intro lza hctx
      rw [hA] at hctx
      simp only [Option.some.injEq, Prod.mk.injEq] at hctx
      obtain ⟨hma, hlza⟩ := hctx
      subst hma
      subst hlza
      have hda0 : da = qZero := by
        have hz : lastDist ([] : List GCode) = some qZero := rfl
        rw [hz] at hda
        exact (Option.some.inj hda).symm
      subst hda0
      have hcond : (qLt qZero qZero && qLt qZero cfg.landing_dist) = false := by
        rw [show qLt qZero qZero = false from by decide]
        exact Bool.false_and _
      rcases wipeSeg_ok hls with ⟨-, hempty⟩ | ⟨hcondtrue, -⟩
      · refine ⟨[⟨"", [], "TYPE:Z-WIPE"⟩] ++ p.raiseS ++ [retract] ++ p.takeoffS
          ++ [p.hop], qAdd z_next cfg.z_relief, ?_⟩
        rw [hempty, hlow]
        simp
      · rw [hcond] at hcondtrue
        exact absurd hcondtrue (by simp)

theorem C5_witness :
    (∃ h l ls, w_out = [⟨"", [], "TYPE:Z-WIPE"⟩] ++ raiseSeg defaultCfg (some ⟨4, 1⟩)
        ++ [sRetract, h, l] ++ ls ++ [sExtrude] ++ (some sSec).toList ++ [sDown] ∧
      h.comment = "hop" ∧ l.comment = "lower a bit") ∧
    (∃ front z, w_out = front ++ [⟨"G0", [('Z', PVal.num z)], "lower a bit"⟩, sExtrude]
      ++ (some sSec).toList ++ [sDown]) :=
  ⟨(C5_empty_context_fallback defaultCfg wLines 1 6 sRetract sUp sMove (some sSec)
      sDown sExtrude 60 w_out (by decide)).1 (some ⟨4, 1⟩) (by decide),
   (C5_empty_context_fallback defaultCfg wLines 1 6 sRetract sUp sMove (some sSec)
      sDown sExtrude 60 w_out (by decide)).2 (some ⟨9, 1⟩) (by decide)⟩

/-! ### Claim C6 — the hop record -/

/-- C6 (confirmed): every successful synthesis emits exactly one hop
record; it targets the `move` slot's X and Y and sits at vertical
position `max(down.Z + z_hop_per_mm * hop_dist, up.Z)`, where
`hop_dist` is the planar distance from the first backward-context move
to the `move` target (0 when the backward context is empty).  The
`strArgs` hypotheses record that the slot records are parsed records
(all argument values raw strings), as `process` always supplies. -/
theorem C6_hop_record (cfg : Config) (lines : List String) (s e : ℕ)
    (retract up move : GCode) (sec : Option GCode) (down extrude : GCode)
    (fuel : ℕ) (out : List GCode) (mvs : List GCode) (lz : Option Q)
    (hd zd zu : Q) (mx my : PVal)
    (hmh : make_hop cfg lines s e retract up move sec down extrude fuel = .ok out)
    (hctxB : extract_context cfg.same_type (backSlice lines s) 20 = some (mvs, lz))
    (hhd : hopDistOf mvs move = some hd)
    (hzd : argFloat down 'Z' = some zd)
    (hzu : argFloat up 'Z' = some zu)
    (hmx : getArg move 'X' = some mx)
    (hmy : getArg move 'Y' = some my)
    (hsr : strArgs retract = true) (hsd : strArgs down = true)
    (hse : strArgs extrude = true)
    (hss : ∀ sc, sec = some sc → strArgs sc = true) :
    List.count (⟨"G0", [('X', mx), ('Y', my),
      ('Z', PVal.num (qMax (qAdd zd (qMul cfg.z_hop_per_mm hd)) zu)),
      ('F', PVal.num (qOfNat 9000))], "hop"⟩ : GCode) out = 1 := by
  unfold make_hop at hmh
  cases hp : make_hop_parts cfg lines s e move down up fuel with
  | err => rw [hp] at hmh; exact absurd hmh (by simp)
  | timeout => rw [hp] at hmh; exact absurd hmh (by simp)
  | ok p =>
    rw [hp] at hmh
    try dsimp only at hmh
    cases hmh
    obtain ⟨mb, lz0, db, ma, lza0, da, hB, hdb, hA, hda, hrs, hts, hls,
      hop_dist, z_next, z_up_orig, mx0, my0, hhd0, hzd0, hzu0, hmx0, hmy0, hhop, hlow⟩ :=
      mhp_ok_inv hp
    rw [hB] at hctxB
    simp only [Option.some.injEq, Prod.mk.injEq] at hctxB
    obtain ⟨hmval, hlzval⟩ := hctxB
    subst hmval
    subst hlzval
    rw [hhd0] at hhd
    obtain rfl := Option.some.inj hhd
    rw [hzd0] at hzd
    obtain rfl := Option.some.inj hzd
    rw [hzu0] at hzu
    obtain rfl := Option.some.inj hzu
    rw [hmx0] at hmx
    obtain rfl := Option.some.inj hmx
    rw [hmy0] at hmy
    obtain rfl := Option.some.inj hmy
    set X : GCode := ⟨"G0", [('X', mx0), ('Y', my0),
      ('Z', PVal.num (qMax (qAdd z_next (qMul cfg.z_hop_per_mm hop_dist)) z_up_orig)),
      ('F', PVal.num (qOfNat 9000))], "hop"⟩ with hX
    have hwipe_t : ∀ g ∈ p.takeoffS, g.cmd = "G1" := by
      intro g hg
      obtain ⟨vx, vy, rfl⟩ := wipeSeg_mem_shape hts g hg
      rfl
    have hwipe_l : ∀ g ∈ p.landingS, g.cmd = "G1" := by
      intro g hg
      obtain ⟨vx, vy, rfl⟩ := wipeSeg_mem_shape hls g hg
      rfl
    have h1 : X ∉ [(⟨"", [], "TYPE:Z-WIPE"⟩ : GCode)] := by
      simp only [List.mem_singleton]
      intro hEq
      have hc := congrArg GCode.cmd hEq
      simp at hc
    have h2 : X ∉ raiseSeg cfg lz0 := by
      cases lz0 with
      | none => simp [raiseSeg]
      | some z =>
        simp only [raiseSeg, List.mem_singleton]
        intro hEq
        have hc := congrArg GCode.comment hEq
        simp at hc
    have h3 : X ∉ [retract] := by
      simp only [List.mem_singleton]
      intro hEq
      apply strArgs_no_num hsr 'Z'
        (qMax (qAdd z_next (qMul cfg.z_hop_per_mm hop_dist)) z_up_orig)
      rw [← hEq, hX]
      simp
    have h4 : X ∉ p.takeoffS := by
      intro hmem
      have hc := hwipe_t X hmem
      rw [hX] at hc
      simp at hc
    have h5 : X ∉ [p.lower] := by
      rw [hlow]
      simp only [List.mem_singleton]
      intro hEq
      have hc := congrArg GCode.comment hEq
      simp at hc
    have h6 : X ∉ p.landingS := by
      intro hmem
      have hc := hwipe_l X hmem
      rw [hX] at hc
      simp at hc
    have h7 : X ∉ [extrude] := by
      simp only [List.mem_singleton]
      intro hEq
      apply strArgs_no_num hse 'Z'
        (qMax (qAdd z_next (qMul cfg.z_hop_per_mm hop_dist)) z_up_orig)
      rw [← hEq, hX]
      simp
    have h8 : X ∉ sec.toList := by
      cases hsec : sec with
      | none => simp
      | some sc =>
        simp only [Option.toList_some, List.mem_singleton]
        intro hEq
        apply strArgs_no_num (hss sc hsec) 'Z'
          (qMax (qAdd z_next (qMul cfg.z_hop_per_mm hop_dist)) z_up_orig)
        rw [← hEq, hX]
        simp
    have h9 : X ∉ [down] := by
      simp only [List.mem_singleton]
      intro hEq
      apply strArgs_no_num hsd 'Z'
        (qMax (qAdd z_next (qMul cfg.z_hop_per_mm hop_dist)) z_up_orig)
      rw [← hEq, hX]
      simp
    rw [hrs, hhop]
    simp only [List.count_append]
    rw [List.count_eq_zero.mpr h1, List.count_eq_zero.mpr h2, List.count_eq_zero.mpr h3,
      List.count_eq_zero.mpr h4, List.count_eq_zero.mpr h5, List.count_eq_zero.mpr h6,
      List.count_eq_zero.mpr h7, List.count_eq_zero.mpr h8, List.count_eq_zero.mpr h9]
    simp

theorem C6_witness :
    List.count (⟨"G0", [('X', PVal.str "20"), ('Y', PVal.str "0"),
      ('Z', PVal.num (qMax (qAdd ⟨45, 10⟩ (qMul defaultCfg.z_hop_per_mm ⟨14, 1⟩)) ⟨5, 1⟩)),
      ('F', PVal.num (qOfNat 9000))], "hop"⟩ : GCode) s_out = 1 :=
  C6_hop_record defaultCfg sLines 4 9 sRetract sUp sMove (some sSec) sDown sExtrude
    60 s_out
    [⟨"G0", [('X', .str "6"), ('Y', .str "0")], ""⟩,
     ⟨"G0", [('X', .str "3"), ('Y', .str "0")], ""⟩,
     ⟨"G0", [('X', .str "0"), ('Y', .str "0")], ""⟩]
    (some ⟨4, 1⟩) ⟨14, 1⟩ ⟨45, 10⟩ ⟨5, 1⟩ (PVal.str "20") (PVal.str "0")
    (by decide) (by decide) (by decide) (by decide) (by decide) (by decide) (by decide)
    (by decide) (by decide) (by decide)
    (by intro sc h; cases h; decide)

/-! ### Claim C10 — context scanner bounds -/

theorem ecNext_inv (count : ℕ) (moves : List GCode) (c2 : Bool) (g : GCode)
    (hlt : c2 = true → moves.length < count) (hle : moves.length ≤ count) :
    ((ecNext count moves c2 g).2 = true → (ecNext count moves c2 g).1.length < count) ∧
    (ecNext count moves c2 g).1.length ≤ count := by
  simp only [ecNext]
  by_cases happ : (c2 && hasArg g 'X' && hasArg g 'Y') = true
  · rw [if_pos happ]
    have hc2 : c2 = true := by
      have h' := happ
      rw [Bool.and_eq_true, Bool.and_eq_true] at h'
      exact h'.1.1
    have hlt' := hlt hc2
    constructor
    · intro h3
      by_cases heq : (moves ++ [g]).length = count
      · rw [if_pos heq] at h3
        exact absurd h3 (by simp)
      · simp only [List.length_append, List.length_singleton] at heq ⊢
        omega
    · simp only [List.length_append, List.length_singleton]
      omega
  · rw [if_neg happ]
    constructor
    · intro h3
      by_cases heq : moves.length = count
      · rw [if_pos heq] at h3
        exact absurd h3 (by simp)
      · rw [if_neg heq] at h3
        exact Nat.lt_of_le_of_ne hle heq
    · exact hle

theorem ecNext_XY (count : ℕ) (moves : List GCode) (c2 : Bool) (g : GCode)
    (hXY : ∀ x ∈ moves, hasArg x 'X' = true ∧ hasArg x 'Y' = true) :
    ∀ x ∈ (ecNext count moves c2 g).1, hasArg x 'X' = true ∧ hasArg x 'Y' = true := by
  simp only [ecNext]
  by_cases happ : (c2 && hasArg g 'X' && hasArg g 'Y') = true
  · rw [if_pos happ]
    intro x hx
    rcases List.mem_append.mp hx with hx | hx
    · exact hXY x hx
    · rw [List.mem_singleton] at hx
      subst hx
      have h' := happ
      rw [Bool.and_eq_true, Bool.and_eq_true] at h'
      exact ⟨h'.1.2, h'.2⟩
  · rw [if_neg happ]
    exact hXY

theorem ecGo_finish (st : Bool) (count : ℕ) (rest : List String)
    (moves : List GCode) (g : GCode) (z1 : Option Q) (c2 : Bool)
    (mvs : List GCode) (z' : Option Q)
    (ih : ∀ (moves : List GCode) (z : Option Q) (collect : Bool)
        (mvs : List GCode) (z' : Option Q),
      (collect = true → moves.length < count) → moves.length ≤ count →
      (∀ x ∈ moves, hasArg x 'X' = true ∧ hasArg x 'Y' = true) →
      ecGo st count rest moves z collect = some (mvs, z') →
      mvs.length ≤ count ∧ ∀ x ∈ mvs, hasArg x 'X' = true ∧ hasArg x 'Y' = true)
    (hlt : c2 = true → moves.length < count) (hle : moves.length ≤ count)
    (hXY : ∀ x ∈ moves, hasArg x 'X' = true ∧ hasArg x 'Y' = true)
    (h : (if (ecNext count moves c2 g).2 = false ∧ z1.isSome = true
        then some ((ecNext count moves c2 g).1, z1)
        else ecGo st count rest (ecNext count moves c2 g).1 z1 (ecNext count moves c2 g).2) =
      some (mvs, z')) :
    mvs.length ≤ count ∧ ∀ x ∈ mvs, hasArg x 'X' = true ∧ hasArg x 'Y' = true := by
  obtain ⟨hnlt, hnle⟩ := ecNext_inv count moves c2 g hlt hle
  have hnXY := ecNext_XY count moves c2 g hXY
  by_cases hbr : ((ecNext count moves c2 g).2 = false ∧ z1.isSome = true)
  · rw [if_pos hbr] at h
    simp only [Option.some.injEq, Prod.mk.injEq] at h
    obtain ⟨rfl, rfl⟩ := h
    exact ⟨hnle, hnXY⟩
  · rw [if_neg hbr] at h
    exact ih _ _ _ _ _ hnlt hnle hnXY h

theorem ecGo_bounds (st : Bool) (count : ℕ) :
    ∀ (lines : List String) (moves : List GCode) (z : Option Q) (collect : Bool)
      (mvs : List GCode) (z' : Option Q),
      (collect = true → moves.length < count) → moves.length ≤ count →
      (∀ g ∈ moves, hasArg g 'X' = true ∧ hasArg g 'Y' = true) →
      ecGo st count lines moves z collect = some (mvs, z') →
      mvs.length ≤ count ∧ ∀ g ∈ mvs, hasArg g 'X' = true ∧ hasArg g 'Y' = true := by
  intro lines
  induction lines with
  | nil =>
    intro moves z collect mvs z' _ hle hXY h
    simp only [ecGo, Option.some.injEq, Prod.mk.injEq] at h
    obtain ⟨rfl, rfl⟩ := h
    exact ⟨hle, hXY⟩
  | cons line rest ih =>
    intro moves z collect mvs z' hlt hle hXY h
    simp only [ecGo] at h
    cases hpl : parse_line line with
    | none => rw [hpl] at h; exact absurd h (by simp)
    | some g =>
      rw [hpl] at h
      try dsimp only at h
      cases hz : getArg g 'Z' with
      | some v =>
        rw [hz] at h
        try dsimp only at h
        cases hv : pyFloatVal v with
        | none => rw [hv] at h; exact absurd h (by simp)
        | some zv =>
          rw [hv] at h
          try dsimp only at h
          exact ecGo_finish st count rest moves g (some zv) false mvs z' ih
            (fun hx => absurd hx (by simp)) hle hXY h
      | none =>
        rw [hz] at h
        try dsimp only at h
        refine ecGo_finish st count rest moves g z
          (if st && strContains "TYPE:".data g.comment.data then false else collect)
          mvs z' ih ?_ hle hXY h
        intro hx
        apply hlt
        by_cases hT : (st && strContains "TYPE:".data g.comment.data) = true
        · rw [if_pos hT] at hx
          exact absurd hx (by simp)
        · rw [if_neg hT] at hx
          exact hx

/-- C10 (amended): for every positive `count`, the context scanner's
moves list contains at most `count` records and every collected record
carries both an `X` and a `Y` argument (so the distance tracker never
sees a record missing a planar coordinate).  For `count = 0` the
`len(moves) == count` stop test cannot fire and the bound fails, so the
positivity restriction is required; the source only ever calls the
scanner with `count = 20`. -/
theorem C10_scanner_bounds (st : Bool) (lines : List String) (count : ℕ)
    (hcount : 1 ≤ count) (mvs : List GCode) (z : Option Q)
    (h : extract_context st lines count = some (mvs, z)) :
    mvs.length ≤ count ∧ ∀ g ∈ mvs, hasArg g 'X' = true ∧ hasArg g 'Y' = true :=
  ecGo_bounds st count lines [] none true mvs z (fun _ => hcount) (Nat.zero_le _)
    (fun g hg => absurd hg (List.not_mem_nil g)) h

theorem C10_witness :
    ([⟨"G0", [('X', PVal.str "1"), ('Y', PVal.str "1")], ""⟩] : List GCode).length ≤ 20 ∧
    ∀ g ∈ ([⟨"G0", [('X', PVal.str "1"), ('Y', PVal.str "1")], ""⟩] : List GCode),
      hasArg g 'X' = true ∧ hasArg g 'Y' = true :=
  C10_scanner_bounds false ["G0 X1 Y1"] 20 (by decide) _ none (by decide)

/-! ### Claim C1 — the relative-mode selector -/

theorem mgGo_range (g : GCode) (i : ℤ) (hi : 0 ≤ i) :
    ∀ (rem : List Slot) (fields : List (String × Option GCode)) (start endI : ℤ),
      start = -1 ∨ (0 ≤ start ∧ start ≤ i) →
      ((mgGo g i rem fields start endI).1 = -1 ∨
        (0 ≤ (mgGo g i rem fields start endI).1 ∧ (mgGo g i rem fields start endI).1 ≤ i)) ∧
      ((mgGo g i rem fields start endI).2.start = -1 ∨
        (0 ≤ (mgGo g i rem fields start endI).2.start ∧
          (mgGo g i rem fields start endI).2.start ≤ i)) := by
  intro rem
  induction rem with
  | nil =>
    intro fields start endI hstart
    simp only [mgGo]
    exact ⟨Or.inr ⟨hi, le_refl i⟩, hstart⟩
  | cons slot rest ih =>
    intro fields start endI hstart
    simp only [mgGo]
    by_cases hm : slotMatches slot g = true
    · rw [if_pos hm]
      refine ⟨Or.inl rfl, ?_⟩
      by_cases hs : start = -1
      · rw [if_pos hs]
        exact Or.inr ⟨hi, le_refl i⟩
      · rw [if_neg hs]
        rcases hstart with h | h
        · exact absurd h hs
        · exact Or.inr h
    · rw [if_neg hm]
      by_cases ho : slot.optional = true
      · rw [if_pos ho]
        apply ih
        by_cases hs : start = -1
        · rw [if_pos hs]
          exact Or.inr ⟨hi, le_refl i⟩
        · rw [if_neg hs]
          rcases hstart with h | h
          · exact absurd h hs
          · exact Or.inr h
      · rw [if_neg ho]
        by_cases hs : start ≠ -1
        · rw [if_pos hs]
          rcases hstart with h | h
          · exact absurd h hs
          · exact ⟨Or.inr h, Or.inr h⟩
        · rw [if_neg hs]
          exact ⟨Or.inr ⟨hi, le_refl i⟩, hstart⟩

theorem match_gcode_range (g : GCode) (m : MatchResult) (i : ℤ) (hi : 0 ≤ i)
    (hstart : m.start = -1 ∨ (0 ≤ m.start ∧ m.start ≤ i)) :
    ((match_gcode g m i).1 = -1 ∨
      (0 ≤ (match_gcode g m i).1 ∧ (match_gcode g m i).1 ≤ i)) ∧
    ((match_gcode g m i).2.start = -1 ∨
      (0 ≤ (match_gcode g m i).2.start ∧ (match_gcode g m i).2.start ≤ i)) :=
  mgGo_range g i hi m.remaining m.fields m.start m.endI hstart

theorem completeMatch_ok_state {cfg : Config} {lines : List String} {fuel : ℕ}
    {acc acc1 : List GCode} {m1 m2 : MatchResult}
    (h : completeMatch cfg lines fuel acc m1 = .ok (acc1, m2)) :
    m2 = initMatch ∨ m2 = m1 := by
  unfold completeMatch at h
  by_cases hrem : m1.remaining = []
  · rw [if_pos hrem] at h
    split at h
    · split at h
      · simp only [MRes.ok.injEq, Prod.mk.injEq] at h
        exact Or.inl h.2.symm
      · exact absurd h (by simp)
      · exact absurd h (by simp)
    · exact absurd h (by simp)
  · rw [if_neg hrem] at h
    simp only [MRes.ok.injEq, Prod.mk.injEq] at h
    exact Or.inr h.2.symm

theorem nextState_some {lines : List String} {i : ℕ} {g : GCode} {rewind : ℤ}
    {m2 : MatchResult} {acc1 : List GCode} {i' : ℕ} {m' : MatchResult}
    {acc' : List GCode}
    (hb : rewind = -1 ∨ (0 ≤ rewind ∧ rewind ≤ (i : ℤ)))
    (h : nextState lines i g rewind m2 acc1 = some (i', m', acc')) :
    (i' = i + 1 ∧ m' = m2) ∨ (i' ≤ i + 1 ∧ m'.start = -1) := by
  unfold nextState at h
  by_cases hrw : rewind = -1
  · rw [if_pos hrw] at h
    simp only [Option.some.injEq, Prod.mk.injEq] at h
    exact Or.inl ⟨h.1.symm, h.2.1.symm⟩
  · rw [if_neg hrw] at h
    try dsimp only at h
    rcases hb with hb | hb
    · exact absurd hb hrw
    cases hre : (if rewind.toNat = i then some g
        else (lines.get? rewind.toNat).bind parse_line) with
    | none => rw [hre] at h; exact absurd h (by simp)
    | some g2 =>
      rw [hre] at h
      try dsimp only at h
      simp only [Option.some.injEq, Prod.mk.injEq] at h
      obtain ⟨hi', hm', -⟩ := h
      right
      constructor
      · rw [← hi']
        have htn : rewind.toNat ≤ i := Int.toNat_le.mpr hb.2
        omega
      · rw [← hm']
        by_cases hms : m2.start ≠ -1
        · rw [if_pos hms]
          rfl
        · rw [if_neg hms]
          exact not_not.mp hms

theorem processLoop_G91_never_ok (cfg : Config) (lines : List String) :
    ∀ (fuel i : ℕ) (m : MatchResult) (acc : List GCode),
      (∃ j, i ≤ j ∧ ∃ line, lines.get? j = some line ∧ isG91Line line = true) →
      (m.start = -1 ∨ (0 ≤ m.start ∧ m.start ≤ (i : ℤ))) →
      ∀ out, processLoop cfg lines fuel i m acc ≠ .ok out := by
  intro fuel
  induction fuel with
  | zero =>
    intro i m acc _ _ out h
    simp [processLoop] at h
  | succ fuel ih =>
    intro i m acc hex hstart out hout
    obtain ⟨j, hij, linej, hjget, hj91⟩ := hex
    have hjlt : j < lines.length := by
      by_contra hcon
      rw [List.get?_eq_none.mpr (Nat.le_of_not_lt hcon)] at hjget
      exact absurd hjget (by simp)
    have hi : i < lines.length := Nat.lt_of_le_of_lt hij hjlt
    cases hgl : lines.get? i with
    | none =>
      rw [List.get?_eq_none] at hgl
      omega
    | some line =>
      simp only [processLoop, hgl] at hout
      cases hpl : parse_line line with
      | none => rw [hpl] at hout; exact absurd hout (by simp)
      | some g =>
        rw [hpl] at hout
        try dsimp only at hout
        by_cases hg91 : g.cmd = "G91"
        · rw [if_pos hg91] at hout
          exact absurd hout (by simp)
        · rw [if_neg hg91] at hout
          try dsimp only at hout
          have hjge : i + 1 ≤ j := by
            by_contra hcon
            have hji : j = i := by omega
            subst hji
            rw [hgl] at hjget
            have hlineeq : line = linej := by
              simpa using hjget
            subst hlineeq
            unfold isG91Line at hj91
            rw [hpl] at hj91
            simp only [beq_iff_eq] at hj91
            exact hg91 hj91
          cases hc : completeMatch cfg lines fuel acc (match_gcode g m (i : ℤ)).2 with
          | err => rw [hc] at hout; exact absurd hout (by simp)
          | timeout => rw [hc] at hout; exact absurd hout (by simp)
          | ok pr =>
            obtain ⟨acc1, m2⟩ := pr
            rw [hc] at hout
            try dsimp only at hout
            cases hns : nextState lines i g (match_gcode g m (i : ℤ)).1 m2 acc1 with
            | none => rw [hns] at hout; exact absurd hout (by simp)
            | some tr =>
              obtain ⟨i', m', acc'⟩ := tr
              rw [hns] at hout
              try dsimp only at hout
              obtain ⟨hrwb, hm2sb⟩ :=
                match_gcode_range g m (i : ℤ) (Int.natCast_nonneg i) hstart
              have hm2 := completeMatch_ok_state hc
              rcases nextState_some hrwb hns with ⟨hi', hm'⟩ | ⟨hi', hm'⟩
              · rw [hi', hm'] at hout
                refine ih (i + 1) m2 acc' ⟨j, hjge, linej, hjget, hj91⟩ ?_ out hout
                rcases hm2 with rfl | rfl
                · exact Or.inl rfl
                · rcases hm2sb with h | h
                  · exact Or.inl h
                  · refine Or.inr ⟨h.1, ?_⟩
                    have h2 := h.2
                    omega
              · exact ih i' m' acc'
                  ⟨j, by omega, linej, hjget, hj91⟩ (Or.inl hm') out hout

/-- C1 (amended): an input containing a line whose command is the
relative-mode selector `G91` never processes to completion — `process`
never returns a completed output stream, for any fuel.  (It fails with
`UnsupportedModeError` when the `G91` line is reached; an exception
raised earlier — e.g. the IndexError of a malformed preceding line, or
a synthesis error — aborts the run first with a different error, as the
counterexample shows.) -/
theorem C1_G91_input_never_completes (cfg : Config) (lines : List String) (fuel : ℕ)
    (hg : ∃ j line, lines.get? j = some line ∧ isG91Line line = true) :
    ∀ out, process cfg lines fuel ≠ .ok out := by
  obtain ⟨j, line, hjget, hj91⟩ := hg
  exact processLoop_G91_never_ok cfg lines fuel 0 initMatch []
    ⟨j, Nat.zero_le j, line, hjget, hj91⟩ (Or.inl rfl)

theorem C1_witness : process defaultCfg ["G91"] 5 ≠ .ok [] :=
  C1_G91_input_never_completes defaultCfg ["G91"] 5 ⟨0, "G91", by decide, by decide⟩ []

/-! ### Claim C2 — pass-through of non-matching input -/

theorem processLoop_nomatch_step (cfg : Config) (lines : List String) (fuel i : ℕ)
    (acc : List GCode) (line : String) (g : GCode)
    (hget : lines.get? i = some line)
    (hpl : parse_line line = some g)
    (hg91 : g.cmd ≠ "G91")
    (hnm : slotMatches ⟨"G1", .exact ['F', 'E'], "retract", false⟩ g = false) :
    processLoop cfg lines (fuel + 1) i initMatch acc =
      processLoop cfg lines fuel (i + 1) initMatch (acc ++ [g]) := by
  have hmg : match_gcode g initMatch (i : ℤ) = ((i : ℤ), initMatch) := by
    simp [match_gcode, initMatch, hop_pattern, mgGo, hnm]
  have hcm : completeMatch cfg lines fuel acc initMatch = .ok (acc, initMatch) := by
    unfold completeMatch
    rw [if_neg (by simp [initMatch, hop_pattern])]
  have hns : nextState lines i g (i : ℤ) initMatch acc =
      some (i + 1, initMatch, acc ++ [g]) := by
    unfold nextState
    rw [if_neg (by omega : ¬((i : ℤ) = -1))]
    try dsimp only
    rw [show ((i : ℤ).toNat = i) from Int.toNat_natCast i]
    rw [if_pos rfl]
    try dsimp only
    rw [if_neg (by simp [initMatch])]
  simp only [processLoop, hget, hpl]
  rw [if_neg hg91]
  try dsimp only
  rw [hmg]
  try dsimp only
  rw [hcm]
  try dsimp only
  rw [hns]

theorem processLoop_passthrough (cfg : Config) (lines : List String) :
    ∀ (fuel i : ℕ) (acc gs : List GCode),
      lines.length - i < fuel →
      (∀ l ∈ lines.drop i, passThruLine l = true) →
      (lines.drop i).mapM parse_line = some gs →
      processLoop cfg lines fuel i initMatch acc = .ok (acc ++ gs) := by
  intro fuel
  induction fuel with
  | zero =>
    intro i acc gs hf _ _
    omega
  | succ fuel ih =>
    intro i acc gs hf hall hparse
    cases hget : lines.get? i with
    | none =>
      have hlen : lines.length ≤ i := List.get?_eq_none.mp hget
      rw [List.drop_eq_nil_of_le hlen] at hparse
      have hgs : gs = [] := by
        have h0 : List.mapM parse_line ([] : List String) = some [] := rfl
        rw [h0] at hparse
        exact (Option.some.inj hparse).symm
      subst hgs
      simp only [processLoop, hget]
      rw [if_neg (by simp [initMatch])]
      simp
    | some line =>
      have hi : i < lines.length := by
        by_contra hcon
        rw [List.get?_eq_none.mpr (Nat.le_of_not_lt hcon)] at hget
        exact absurd hget (by simp)
      have hdrop : lines.drop i = line :: lines.drop (i + 1) := by
        have hgg := List.get?_eq_get hi
        rw [hget] at hgg
        rw [List.drop_eq_get_cons hi, ← Option.some.inj hgg]
      rw [hdrop] at hall hparse
      have hptl := hall line (List.mem_cons_self line _)
      unfold passThruLine at hptl
      cases hpl : parse_line line with
      | none =>
        rw [hpl] at hptl
        exact absurd hptl (by simp)
      | some g =>
        rw [hpl] at hptl
        rw [Bool.and_eq_true] at hptl
        obtain ⟨hng91, hnoslot⟩ := hptl
        have hg91 : g.cmd ≠ "G91" := by
          intro hx
          rw [hx] at hng91
          simp at hng91
        have hnm : slotMatches ⟨"G1", .exact ['F', 'E'], "retract", false⟩ g = false := by
          rw [List.all_eq_true] at hnoslot
          have hmem : (⟨"G1", .exact ['F', 'E'], "retract", false⟩ : Slot) ∈ hop_pattern := by
            simp [hop_pattern]
          simpa using hnoslot _ hmem
        cases hrest : (lines.drop (i + 1)).mapM parse_line with
        | none =>
          rw [List.mapM_cons, hpl, hrest] at hparse
          simp at hparse
        | some gs' =>
          rw [List.mapM_cons, hpl, hrest] at hparse
          simp only [Option.pure_def, Option.bind_some, Option.bind_eq_bind,
            Option.some_bind, Option.some.injEq] at hparse
          rw [processLoop_nomatch_step cfg lines fuel i acc line g hget hpl hg91 hnm]
          have hnext := ih (i + 1) (acc ++ [g]) gs' (by omega)
            (fun l hl => hall l (List.mem_cons_of_mem _ hl)) hrest
          rw [hnext, ← hparse]
          simp

/-- C2 (amended): for every input in which every line parses cleanly,
no line's command is the fatal `G91`, and no line matches any of the
six pattern slots, the output equals the input re-parsed: one record
per input line, in order, each the parse of that line.  (The original
claim fails without the first two conditions: a `G91` line matches no
slot yet aborts the run, and an unparsable line matches no slot yet
raises — see the counterexample.) -/
theorem C2_passthrough (cfg : Config) (lines : List String) (fuel : ℕ)
    (gs : List GCode)
    (hfuel : lines.length < fuel)
    (hall : ∀ l ∈ lines, passThruLine l = true)
    (hparse : lines.mapM parse_line = some gs) :
    process cfg lines fuel = .ok gs := by
  have hrun := processLoop_passthrough cfg lines fuel 0 [] gs (by omega)
    (by simpa using hall) (by simpa using hparse)
  simpa [process] using hrun

theorem C2_witness :
    process defaultCfg ["M104 S200"] 3 = .ok [⟨"M104", [('S', PVal.str "200")], ""⟩] :=
  C2_passthrough defaultCfg ["M104 S200"] 3 _ (by decide) (by decide) (by decide)
